import Mathlib

/-!
Verification of the Google Drive bulk downloader (src/main.py) against its
natural-language specification.

The embedding is shallow: the Python functions are translated into pure Lean
functions, with the process state (local filesystem, progress counter, log)
passed explicitly.  Machine-level concerns (actual HTTP traffic, OAuth,
tqdm rendering, logging timestamps) are abstracted exactly at the boundary the
spec itself declares out of scope; everything the claims talk about — path
computation, skip logic, counter updates, recursion structure, link parsing —
is modelled operation by operation from the source.

Source correspondence:
* Python str `in`             → hasSub (contiguous substring test on char lists)
* Python str.split(sep)       → pySplit (left-to-right non-overlapping splitting)
* extract_folder_ids          → extract_folder_ids (lines are given as produced
                                by readlines, i.e. they still carry their line
                                terminator)
* count_files                 → count_files / count_files_children
* download_google_drive_folder→ download_google_drive_folder / download_folder_children
* google_drive_bulk_download  → google_drive_bulk_download (authentication and
                                link-file reading abstracted: the walked roots
                                are passed as already-resolved remote trees)
-/

/-! ## Python string primitives on character lists -/

/-- hasPre needle hay: needle is a leading segment of hay (used to detect a
separator occurrence starting at the current scan position). -/
def hasPre : List Char → List Char → Bool
  | [], _ => true
  | _ :: _, [] => false
  | a :: as, b :: bs => a == b && hasPre as bs

/-- Python `needle in hay` for strings: contiguous substring test. -/
def hasSub (needle : List Char) : List Char → Bool
  | [] => hasPre needle []
  | c :: t => hasPre needle (c :: t) || hasSub needle t

/-- Fuel-driven scanner for Python str.split(sep) with a non-empty separator:
scan left to right, emit the accumulated part at each non-overlapping
separator occurrence.  The fuel only serves to make the recursion structural;
fuel = length of the scanned list always suffices. -/
def pySplitF (sep : List Char) : Nat → List Char → List (List Char)
  | 0, s => [s]
  | _ + 1, [] => [[]]
  | fuel + 1, c :: t =>
    if hasPre sep (c :: t) then
      [] :: pySplitF sep fuel ((c :: t).drop sep.length)
    else
      match pySplitF sep fuel t with
      | [] => [[c]]
      | p :: ps => (c :: p) :: ps

/-- Python str.split(sep) for a non-empty separator. -/
def pySplit (sep s : List Char) : List (List Char) :=
  pySplitF sep s.length s

/-- Python str.split for the one-character separator used by the extractor,
namely the question mark. -/
def splitQ : List Char → List (List Char)
  | [] => [[]]
  | c :: t =>
    if c == '?' then [] :: splitQ t
    else
      match splitQ t with
      | [] => [[c]]
      | p :: ps => (c :: p) :: ps

/-! ## Link extractor (src/main.py, extract_folder_ids, lines 181-206) -/

/-- The URL marker tested by the membership check on line 200. -/
def markerL : List Char := "drive.google.com/drive/folders/".toList

/-- The separator used by the split on line 202. -/
def foldersSepL : List Char := "/folders/".toList

/-- line.split('/folders/')[1].split('?')[0] with the IndexError of the [1]
access surfaced as none (the warning branch of lines 204-205). -/
def extractLine (line : List Char) : Option (List Char) :=
  match (pySplit foldersSepL line).get? 1 with
  | none => none
  | some seg => some ((splitQ seg).headD [])

/-- extract_folder_ids over the list of raw lines of the links file (as
produced by readlines: every line except possibly the last still ends with
its newline character).  Returns the extracted identifiers in file order
together with the number of invalid-format warnings that were logged. -/
def extract_folder_ids : List (List Char) → List (List Char) × Nat
  | [] => ([], 0)
  | line :: rest =>
    let acc := extract_folder_ids rest
    if hasSub markerL line then
      match extractLine line with
      | some fid => (fid :: acc.1, acc.2)
      | none => (acc.1, acc.2 + 1)
    else acc

/-! ## Local path model (pathlib.Path) -/

/-- The string rendering str(p) of a path held as a component list, joined by
the POSIX separator. -/
def pathChars : List String → List Char
  | [] => []
  | [x] => x.toList
  | x :: y :: t => x.toList ++ '/' :: pathChars (y :: t)

/-- The membership test of line 104: folder_name in str(folder_output_path),
i.e. a substring test against the rendered path string. -/
def strInPath (name : String) (p : List String) : Bool :=
  hasSub name.toList (pathChars p)

/-- Lines 102-106: the target directory of a folder — reuse the output
directory when the folder name occurs as a substring of its rendering,
otherwise append the folder name as a new component. -/
def folderTarget (outputDir : List String) (folderName : String) : List String :=
  if strInPath folderName outputDir then outputDir else outputDir ++ [folderName]

/-- Index of the last dot of a file name, if any. -/
def lastIndexOfDot : List Char → Option Nat
  | [] => none
  | c :: t =>
    match lastIndexOfDot t with
    | some i => some (i + 1)
    | none => if c == '.' then some 0 else none

/-- pathlib's with_suffix('.pdf') on a file name: the suffix starts at the
last dot provided that dot is neither the leading character nor the trailing
one; a name without such a dot keeps everything and gains '.pdf'. -/
def withSuffixPdfL (cs : List Char) : List Char :=
  match lastIndexOfDot cs with
  | some i =>
    if 0 < i && i + 1 < cs.length then cs.take i ++ ".pdf".toList
    else cs ++ ".pdf".toList
  | none => cs ++ ".pdf".toList

/-- file_path.with_suffix('.pdf') restricted to the final component, which is
the only component the walker ever rewrites (line 136). -/
def withSuffixPdf (name : String) : String :=
  String.mk (withSuffixPdfL name.toList)

/-! ## Remote tree model (the drive, as seen through ListFile/CreateFile) -/

/-- One remote file entry as consumed by the walker: its display name
(title), whether the metadata carries a downloadUrl key, the result of
looking up 'application/pdf' in its exportLinks map when that key is present
(none = no exportLinks key; some none = exportLinks without a PDF entry;
some (some link) = a PDF export link), and whether the content fetch/write
for this entry raises an exception (GetContentFile on line 130, or the
export request/write on lines 135-137). -/
structure FileEntry where
  title : String
  hasDownloadUrl : Bool
  exportLinks : Option (Option String)
  raises : Bool
deriving Repr, DecidableEq

mutual
/-- A node of the remote hierarchy.  A folder carries its identifier, the
result of the metadata fetch of lines 95-96 (none = exception), and the
result of listing its children on line 109 / line 70 (none = exception).
Being an inductive value, the hierarchy is finite and acyclic, which is the
acyclicity invariant the spec assumes of the external system. -/
inductive RNode where
  | file : FileEntry → RNode
  | folder : String → Option String → Option RList → RNode
/-- Children of a folder, in listing order. -/
inductive RList where
  | rnil : RList
  | rcons : RNode → RList → RList
end

/-- One logged event, in emission order. -/
inductive LogEntry where
  | processing : String → LogEntry
  | errMeta : String → LogEntry
  | errListing : String → LogEntry
  | skip : String → LogEntry
  | downloaded : String → LogEntry
  | exported : String → LogEntry
  | warnNoExportLink : String → LogEntry
  | warnNotDownloadable : String → LogEntry
  | errFile : String → LogEntry
deriving Repr, DecidableEq

/-- Local process state threaded through the run: the set of file paths
present on disk, the set of directories created so far, the shared progress
counter (progress_bar.n), the sequence of content writes performed (each
download or export appends the path it wrote), and the log. -/
structure DState where
  fs : List (List String)
  dirs : List (List String)
  counter : Nat
  writes : List (List String)
  log : List LogEntry
deriving Repr, DecidableEq

/-- file_path.exists() against the modelled disk. -/
def pathExists (p : List String) : List (List String) → Bool
  | [] => false
  | q :: t => if p = q then true else pathExists p t

/-- Record a path as present on disk (writes overwrite, so the set view is
unchanged when the path is already present). -/
def addPath (p : List String) (fs : List (List String)) : List (List String) :=
  if pathExists p fs then fs else fs ++ [p]

mutual
/-- count_files (src/main.py lines 58-81) for the folder a node stands for:
a failed listing counts 0 for the whole subtree; a folder child adds its own
recursive count; a file child adds 1.  Metadata is never consulted. -/
def count_files : RNode → Nat
  | .file _ => 1
  | .folder _ _ none => 0
  | .folder _ _ (some cs) => count_files_children cs
/-- The for-loop of lines 76-80 over the listed children. -/
def count_files_children : RList → Nat
  | .rnil => 0
  | .rcons c t => count_files c + count_files_children t
end

mutual
/-- download_google_drive_folder (src/main.py lines 84-146), for the folder
case, and the per-child dispatch of lines 114-146 for the file case.  The
folder case: fetch metadata (failure logs and returns), log the processing
line, compute the target directory via the substring rule of lines 102-106
(creating it when the name is appended), list children (failure logs and
returns), then process the children in order.  The file case: existence
check and skip (lines 120-126), direct download (lines 129-131), PDF export
(lines 132-138), the two warning skips (lines 139-142), with the counter
update of line 144 at the end of the block and the per-file exception
handler of lines 145-146 reached instead of that update when the fetch or
write raises. -/
def download_google_drive_folder : RNode → List String → DState → DState
  | .file e, dir, s =>
    let fp := dir ++ [e.title]
    if pathExists fp s.fs then
      { s with log := s.log ++ [.skip e.title], counter := s.counter + 1 }
    else if e.hasDownloadUrl then
      if e.raises then
        { s with log := s.log ++ [.errFile e.title] }
      else
        { s with fs := addPath fp s.fs, writes := s.writes ++ [fp],
                 log := s.log ++ [.downloaded e.title], counter := s.counter + 1 }
    else
      match e.exportLinks with
      | some (some _) =>
        if e.raises then
          { s with log := s.log ++ [.errFile e.title] }
        else
          let pp := dir ++ [withSuffixPdf e.title]
          { s with fs := addPath pp s.fs, writes := s.writes ++ [pp],
                   log := s.log ++ [.exported e.title], counter := s.counter + 1 }
      | some none =>
        { s with log := s.log ++ [.warnNoExportLink e.title], counter := s.counter + 1 }
      | none =>
        { s with log := s.log ++ [.warnNotDownloadable e.title], counter := s.counter + 1 }
  | .folder fid m listing, dir, s =>
    match m with
    | none => { s with log := s.log ++ [.errMeta fid] }
    | some name =>
      let s1 := { s with log := s.log ++ [.processing name] }
      let dir2 := folderTarget dir name
      let s2 := if strInPath name dir then s1 else { s1 with dirs := addPath dir2 s1.dirs }
      match listing with
      | none => { s2 with log := s2.log ++ [.errListing fid] }
      | some cs => download_folder_children cs dir2 s2
/-- The for-loop of line 114 over the listed children. -/
def download_folder_children : RList → List String → DState → DState
  | .rnil, _, s => s
  | .rcons c t, dir, s => download_folder_children t dir (download_google_drive_folder c dir s)
end

/-- google_drive_bulk_download (src/main.py lines 149-178), from the point
where the folder identifiers have been extracted and resolved against the
drive (authentication and the links file are external collaborators per the
spec): the total is computed once by the counting pre-pass, the progress
counter starts at 0, then every root is walked into the configured output
directory.  Returns the total alongside the final state. -/
def google_drive_bulk_download (roots : List RNode) (outDir : List String)
    (fs0 dirs0 : List (List String)) : Nat × DState :=
  let total := (roots.map count_files).sum
  let s0 : DState := ⟨fs0, dirs0, 0, [], []⟩
  (total, roots.foldl (fun s n => download_google_drive_folder n outDir s) s0)

/-! ## Derived notions used to state the claims -/

/-- Entry-kind test: is the listing entry a file (non-folder mimeType)? -/
def isFileEntry : RNode → Bool
  | .file _ => true
  | .folder _ _ _ => false

mutual
/-- All strict descendants of a node, as delivered by the modelled listings:
for a folder with a successful listing, its children followed by their own
descendants; a failed listing exposes no descendants. -/
def descendants : RNode → List RNode
  | .file _ => []
  | .folder _ _ none => []
  | .folder _ _ (some cs) => descendantsChildren cs
def descendantsChildren : RList → List RNode
  | .rnil => []
  | .rcons c t => c :: (descendants c ++ descendantsChildren t)
end

/-- Spec-side counting (section 8 of the spec, worded independently of
count_files): the number of descendant file entries across arbitrary nesting
depth — folders contribute 0 themselves, files contribute 1 each. -/
def specDescFileCount (n : RNode) : Nat :=
  (descendants n).countP (fun c => isFileEntry c)

mutual
/-- Every remote operation under this node succeeds: metadata fetches and
listings return, and no per-file fetch/write raises. -/
def allSuccNode : RNode → Bool
  | .file e => !e.raises
  | .folder _ m listing =>
    m.isSome && (match listing with
      | none => false
      | some cs => allSuccChildren cs)
def allSuccChildren : RList → Bool
  | .rnil => true
  | .rcons c t => allSuccNode c && allSuccChildren t
end

/-- A file entry whose first successful run materialises exactly the path the
existence check of line 123 later probes: either a direct download, or a PDF
export whose display name is unchanged by the '.pdf' substitution. -/
def entryResumable (e : FileEntry) : Bool :=
  !e.raises &&
    (e.hasDownloadUrl ||
      (match e.exportLinks with
       | some (some _) => withSuffixPdf e.title == e.title
       | _ => false))

mutual
/-- Every file entry under this node is resumable and every remote operation
under it succeeds. -/
def resumableNode : RNode → Bool
  | .file e => entryResumable e
  | .folder _ m listing =>
    m.isSome && (match listing with
      | none => false
      | some cs => resumableChildren cs)
def resumableChildren : RList → Bool
  | .rnil => true
  | .rcons c t => resumableNode c && resumableChildren t
end

mutual
/-- The display-name target paths of all file entries reachable under a node
when walked into the given directory (the paths probed by line 123). -/
def fileTargets : RNode → List String → List (List String)
  | .file e, dir => [dir ++ [e.title]]
  | .folder _ none _, _ => []
  | .folder _ (some _) none, _ => []
  | .folder _ (some name) (some cs), dir => fileTargetsChildren cs (folderTarget dir name)
def fileTargetsChildren : RList → List String → List (List String)
  | .rnil, _ => []
  | .rcons c t, dir => fileTargets c dir ++ fileTargetsChildren t dir
end

/-- Exact characterisation of when the per-file block of lines 114-146
advances the progress counter: always, except when a fetch or write raises
after a missed existence check on an entry that actually attempts a fetch. -/
def counterAdvances (e : FileEntry) (dir : List String) (fs : List (List String)) : Bool :=
  pathExists (dir ++ [e.title]) fs ||
    !(e.raises &&
      (e.hasDownloadUrl ||
        (match e.exportLinks with
         | some (some _) => true
         | _ => false)))

/-- The state of the walker right after a successful metadata fetch for a
folder named name: the processing line is logged and, when the name is
appended as a new component, that directory is created (lines 97 and
102-106). -/
def afterMeta (name : String) (dir : List String) (s : DState) : DState :=
  if strInPath name dir then
    { s with log := s.log ++ [LogEntry.processing name] }
  else
    { s with log := s.log ++ [LogEntry.processing name],
             dirs := addPath (folderTarget dir name) s.dirs }

/-- Log entries a fully-skipping re-run may emit: per-file skip lines and
per-folder processing lines. -/
def skipOrProcessing : LogEntry → Bool
  | LogEntry.skip _ => true
  | LogEntry.processing _ => true
  | _ => false

/-- No occurrence of sep starts strictly inside s when sep is appended after
s: rules out separator matches straddling the boundary between a prefix and
the separator that follows it. -/
def noStraddle (sep : List Char) : List Char → Bool
  | [] => true
  | c :: t => !hasPre sep ((c :: t) ++ sep) && noStraddle sep t

/-! ## Helper lemmas: string scanning -/

theorem hasPre_nil_iff (needle : List Char) : hasPre needle [] = true ↔ needle = [] := by
  cases needle <;> simp [hasPre]

theorem hasPre_iff_exists (a b : List Char) : hasPre a b = true ↔ ∃ v, b = a ++ v := by
  induction a generalizing b with
  | nil => simp [hasPre]
  | cons x xs ih =>
    cases b with
    | nil =>
      simp only [hasPre, List.cons_append]
      constructor
      · intro h; cases h
      · rintro ⟨v, hv⟩; cases hv
    | cons y ys =>
      simp only [hasPre, Bool.and_eq_true, beq_iff_eq, ih, List.cons_append]
      constructor
      · rintro ⟨rfl, v, rfl⟩; exact ⟨v, rfl⟩
      · rintro ⟨v, hv⟩
        injection hv with h1 h2
        exact ⟨h1.symm, v, h2⟩

theorem hasSub_iff_exists (a b : List Char) : hasSub a b = true ↔ ∃ u v, b = u ++ a ++ v := by
  induction b with
  | nil =>
    simp only [hasSub, hasPre_nil_iff]
    constructor
    · rintro rfl; exact ⟨[], [], rfl⟩
    · rintro ⟨u, v, huv⟩
      rcases List.append_eq_nil.mp (List.append_eq_nil.mp huv.symm).1 with ⟨-, h2⟩
      exact h2
  | cons y ys ih =>
    simp only [hasSub, Bool.or_eq_true, hasPre_iff_exists, ih]
    constructor
    · rintro (⟨v, hv⟩ | ⟨u, v, hv⟩)
      · exact ⟨[], v, by simp [hv]⟩
      · exact ⟨y :: u, v, by simp [hv]⟩
    · rintro ⟨u, v, huv⟩
      cases u with
      | nil => exact Or.inl ⟨v, by simpa using huv⟩
      | cons z zs =>
        right
        have huv2 : y = z ∧ ys = zs ++ (a ++ v) := by simpa using huv
        exact ⟨zs, v, by simp [huv2.2]⟩

theorem hasSub_of_parts (a u v b : List Char) (h : b = u ++ a ++ v) : hasSub a b = true :=
  (hasSub_iff_exists a b).mpr ⟨u, v, h⟩

theorem hasPre_self_append (a v : List Char) : hasPre a (a ++ v) = true := by
  induction a with
  | nil => simp [hasPre]
  | cons x xs ih => simp [hasPre, ih]

theorem hasPre_append_of_le (sep u w : List Char) (h : sep.length ≤ u.length) :
    hasPre sep (u ++ w) = hasPre sep u := by
  induction sep generalizing u with
  | nil => simp [hasPre]
  | cons a as ih =>
    cases u with
    | nil => simp at h
    | cons b bs =>
      simp only [List.cons_append, hasPre, List.append_eq]
      rw [ih bs (by simpa using h)]

theorem drop_length_append (l₁ l₂ : List Char) : (l₁ ++ l₂).drop l₁.length = l₂ := by
  induction l₁ with
  | nil => simp
  | cons x xs ih => simp [ih]

theorem take_length_append (l₁ l₂ : List Char) : (l₁ ++ l₂).take l₁.length = l₁ := by
  induction l₁ with
  | nil => simp
  | cons x xs ih => simp [ih]

theorem pySplitF_ne_nil (sep : List Char) (f : Nat) (s : List Char) :
    pySplitF sep f s ≠ [] := by
  induction f generalizing s with
  | zero => simp [pySplitF]
  | succ f ih =>
    cases s with
    | nil => simp [pySplitF]
    | cons c t =>
      simp only [pySplitF]
      split
      · simp
      · split
        · simp
        · simp

theorem pySplitF_no_occ (sep : List Char) (f : Nat) (s : List Char)
    (h : hasSub sep s = false) : pySplitF sep f s = [s] := by
  induction f generalizing s with
  | zero => rfl
  | succ f ih =>
    cases s with
    | nil => rfl
    | cons c t =>
      have hsub : hasSub sep (c :: t) = false := h
      rw [hasSub] at hsub
      rcases Bool.or_eq_false_iff.mp hsub with ⟨h1, h2⟩
      simp only [pySplitF, h1, if_neg Bool.false_ne_true]
      rw [ih t h2]

theorem pySplitF_parts (c0 : Char) (sr a b : List Char) (f : Nat)
    (hf : (a ++ (c0 :: sr) ++ b).length ≤ f)
    (ha : noStraddle (c0 :: sr) a = true)
    (hb : hasSub (c0 :: sr) b = false) :
    pySplitF (c0 :: sr) f (a ++ (c0 :: sr) ++ b) = [a, b] := by
  induction a generalizing f with
  | nil =>
    simp only [List.nil_append] at hf ⊢
    cases f with
    | zero => simp at hf
    | succ f =>
      have hp : hasPre (c0 :: sr) (c0 :: (sr ++ b)) = true := by
        have h0 := hasPre_self_append (c0 :: sr) b
        simpa using h0
      have hd : (sr ++ b).drop sr.length = b := drop_length_append _ _
      simp only [List.cons_append, pySplitF, List.append_eq, List.length_cons,
        List.drop_succ_cons, hp, if_pos rfl, hd]
      rw [pySplitF_no_occ _ _ _ hb]
      simp
  | cons x a' ih =>
    cases f with
    | zero => simp at hf
    | succ f =>
      simp only [noStraddle, Bool.and_eq_true] at ha
      obtain ⟨ha1, ha2⟩ := ha
      have hpre : hasPre (c0 :: sr) ((x :: a') ++ (c0 :: sr) ++ b) = false := by
        have hlen : (c0 :: sr).length ≤ ((x :: a') ++ (c0 :: sr)).length := by
          simp; omega
        rw [hasPre_append_of_le _ _ _ hlen]
        simpa using ha1
      have hstep : (x :: a') ++ (c0 :: sr) ++ b = x :: (a' ++ (c0 :: sr) ++ b) := by
        simp
      rw [hstep] at hpre ⊢
      have hrec := ih f (by simp at hf ⊢; omega) ha2
      simp only [pySplitF, List.append_eq, hpre, Bool.false_eq_true, if_false, hrec]

theorem pySplitF_length_two (c0 : Char) (sr : List Char) (f : Nat) (s : List Char)
    (hf : s.length ≤ f) (h : hasSub (c0 :: sr) s = true) :
    2 ≤ (pySplitF (c0 :: sr) f s).length := by
  induction f generalizing s with
  | zero =>
    have : s = [] := List.length_eq_zero.mp (Nat.le_zero.mp hf)
    subst this
    rw [hasSub, hasPre] at h
    cases h
  | succ f ih =>
    cases s with
    | nil =>
      rw [hasSub, hasPre] at h
      cases h
    | cons c t =>
      simp only [pySplitF]
      split
      · rcases hpe : pySplitF (c0 :: sr) f ((c :: t).drop (c0 :: sr).length) with - | ⟨p, ps⟩
        · exact absurd hpe (pySplitF_ne_nil _ _ _)
        · simp
      · rename_i hp
        rw [hasSub, Bool.or_eq_true] at h
        rcases h with h | h
        · exact absurd h (by simpa using hp)
        · have hrec := ih t (by simpa using Nat.le_of_succ_le_succ hf) h
          rcases hpe : pySplitF (c0 :: sr) f t with - | ⟨p, ps⟩
          · exact absurd hpe (pySplitF_ne_nil _ _ _)
          · rw [hpe] at hrec
            simp only [List.length_cons] at hrec ⊢
            omega

theorem splitQ_ne_nil (s : List Char) : splitQ s ≠ [] := by
  induction s with
  | nil => simp [splitQ]
  | cons c t ih =>
    simp only [splitQ]
    split
    · simp
    · split
      · simp
      · simp

theorem splitQ_headD (s : List Char) :
    (splitQ s).headD [] = s.takeWhile (fun c => !(c == '?')) := by
  induction s with
  | nil => rfl
  | cons c t ih =>
    rcases hq : (c == '?') with - | -
    · rcases hsp : splitQ t with - | ⟨p, ps⟩
      · exact absurd hsp (splitQ_ne_nil t)
      · have ih2 : p = t.takeWhile (fun c => !(c == '?')) := by
          rw [hsp] at ih
          simpa using ih
        simp [splitQ, hq, hsp, List.takeWhile, ih2]
    · simp [splitQ, hq, List.takeWhile]

/-! ## Extractor-level lemmas -/

theorem markerL_decomp : markerL = "drive.google.com/drive".toList ++ foldersSepL := by decide

theorem foldersSepL_cons : foldersSepL = '/' :: "folders/".toList := by decide

theorem hasSub_marker_imp_sep (line : List Char) (h : hasSub markerL line = true) :
    hasSub foldersSepL line = true := by
  rcases (hasSub_iff_exists markerL line).mp h with ⟨u, v, huv⟩
  refine hasSub_of_parts _ (u ++ "drive.google.com/drive".toList) v _ ?_
  rw [huv, markerL_decomp]
  simp

theorem pySplit_sep_length_two (line : List Char) (h : hasSub foldersSepL line = true) :
    2 ≤ (pySplit foldersSepL line).length := by
  rw [foldersSepL_cons] at h ⊢
  exact pySplitF_length_two _ _ _ _ (Nat.le_refl _) h

theorem extractLine_of_marker (line : List Char) (h : hasSub markerL line = true) :
    ∃ fid, extractLine line = some fid := by
  have h2 := pySplit_sep_length_two line (hasSub_marker_imp_sep line h)
  rcases hsp : pySplit foldersSepL line with - | ⟨p, ps⟩
  · rw [hsp] at h2; simp at h2
  · rcases ps with - | ⟨q, qs⟩
    · rw [hsp] at h2; simp at h2
    · exact ⟨(splitQ q).headD [], by simp [extractLine, hsp]⟩

theorem extract_warnings_zero (lines : List (List Char)) :
    (extract_folder_ids lines).2 = 0 := by
  induction lines with
  | nil => rfl
  | cons line rest ih =>
    simp only [extract_folder_ids]
    rcases hm : hasSub markerL line with - | -
    · simpa using ih
    · rcases extractLine_of_marker line hm with ⟨fid, hfid⟩
      simp [hfid, ih]

/-! ## Claim C4 -/

/-- C4 counterexample: the claim says that for a line containing the marker
and no question mark the extracted identifier is the text up to the end of
the line excluding any line terminator.  On the line
"drive.google.com/drive/folders/abc\n" (as read by readlines, newline
included) the code extracts "abc\n", not "abc": line.split('?') does not
strip the terminator. -/
theorem C4_counterexample :
    (extract_folder_ids [markerL ++ "abc\n".toList]).1 = ["abc\n".toList] ∧
    "abc\n".toList ≠ "abc".toList := by
  constructor
  · decide
  · decide

/-- C4 amended: for a line made of the marker followed by arbitrary text in
which '/folders/' does not occur again, the extracted identifier is the text
between the marker and the first '?', or, when no '?' follows, the text to
the end of the line INCLUDING its line terminator (readlines keeps the
newline and the extractor never strips it).  The extraction also cuts at a
second '/folders/' occurrence, hence the no-recurrence hypothesis. -/
theorem C4_amended (rest : List Char) (h : hasSub foldersSepL rest = false) :
    extract_folder_ids [markerL ++ rest]
      = ([rest.takeWhile (fun c => !(c == '?'))], 0) := by
  have hmark : hasSub markerL (markerL ++ rest) = true :=
    hasSub_of_parts _ [] rest _ (by simp)
  have hsplit : pySplit foldersSepL (markerL ++ rest)
      = ["drive.google.com/drive".toList, rest] := by
    have harr : markerL ++ rest
        = "drive.google.com/drive".toList ++ foldersSepL ++ rest := by
      rw [markerL_decomp, List.append_assoc]
    rw [harr]
    rw [foldersSepL_cons] at h ⊢
    exact pySplitF_parts _ _ _ _ _ (Nat.le_refl _) (by decide) h
  have hline : extractLine (markerL ++ rest)
      = some (rest.takeWhile (fun c => !(c == '?'))) := by
    have hq := splitQ_headD rest
    rcases hsp : splitQ rest with - | ⟨p, ps⟩
    · exact absurd hsp (splitQ_ne_nil rest)
    · rw [hsp] at hq
      simp only [List.headD] at hq
      simp [extractLine, hsplit, hsp, hq]
  simp [extract_folder_ids, hmark, hline]

/-- Witness for C4 amended at the concrete line
"drive.google.com/drive/folders/a\n". -/
theorem C4_amended_witness :
    extract_folder_ids [markerL ++ "a\n".toList] = (["a\n".toList], 0) :=
  (C4_amended "a\n".toList (by decide)).trans (by decide)

/-! ## Claim C10 -/

/-- C10: for every line containing the folder-URL marker, the extractor
appends exactly one identifier; the malformed-link warning branch is
unreachable because splitting a string containing '/folders/' on that
separator always yields at least two parts, so the warning count is 0 on
every input. -/
theorem C10_thm :
    (∀ line rest, hasSub markerL line = true →
      ∃ fid, extractLine line = some fid ∧
        extract_folder_ids (line :: rest)
          = (fid :: (extract_folder_ids rest).1, (extract_folder_ids rest).2)) ∧
    (∀ lines, (extract_folder_ids lines).2 = 0) ∧
    (∀ line, hasSub foldersSepL line = true → 2 ≤ (pySplit foldersSepL line).length) := by
  refine ⟨?_, extract_warnings_zero, pySplit_sep_length_two⟩
  intro line rest h
  rcases extractLine_of_marker line h with ⟨fid, hfid⟩
  exact ⟨fid, hfid, by simp [extract_folder_ids, h, hfid]⟩

/-- Witness for C10 on the line consisting of the bare marker followed by a
query string: exactly one identifier is appended and it is the empty
string. -/
theorem C10_witness :
    (∃ fid, extractLine (markerL ++ "?usp=sharing".toList) = some fid ∧
      extract_folder_ids [markerL ++ "?usp=sharing".toList]
        = (fid :: (extract_folder_ids []).1, (extract_folder_ids []).2)) ∧
    extractLine (markerL ++ "?usp=sharing".toList) = some [] := by
  refine ⟨(C10_thm.1 (markerL ++ "?usp=sharing".toList) [] (by decide)), ?_⟩
  decide

/-! ## Path lemmas for C1 -/

theorem pathChars_append_last (init : List String) (name : String) :
    ∃ u, pathChars (init ++ [name]) = u ++ name.toList := by
  induction init with
  | nil => exact ⟨[], by simp [pathChars]⟩
  | cons x xs ih =>
    rcases ih with ⟨u, hu⟩
    cases xs with
    | nil => exact ⟨x.toList ++ ['/'], by simp [pathChars]⟩
    | cons y t =>
      refine ⟨x.toList ++ '/' :: u, ?_⟩
      have hu2 : pathChars (y :: (t ++ [name])) = u ++ name.toList := by
        rw [← List.cons_append]
        exact hu
      simp only [List.cons_append, pathChars, List.append_eq]
      rw [hu2]
      simp

theorem getLast?_decomp (l : List String) (name : String) (h : l.getLast? = some name) :
    ∃ init, l = init ++ [name] := by
  induction l with
  | nil => simp at h
  | cons x xs ih =>
    cases xs with
    | nil =>
      simp [List.getLast?] at h
      exact ⟨[], by simp [h]⟩
    | cons y t =>
      rw [List.getLast?_cons_cons] at h
      rcases ih h with ⟨init, hi⟩
      exact ⟨x :: init, by simp [hi]⟩

theorem strInPath_of_last (dir : List String) (name : String)
    (h : dir.getLast? = some name) : strInPath name dir = true := by
  rcases getLast?_decomp dir name h with ⟨init, rfl⟩
  rcases pathChars_append_last init name with ⟨u, hu⟩
  have hp : pathChars (init ++ [name]) = u ++ name.toList ++ [] := by simp [hu]
  exact hasSub_of_parts _ u [] _ hp

/-! ## Claim C1 -/

/-- C1 counterexample: with outputDir = ["A", "B"] and folder display name
"A", the final path component is "B", not "A", so the claim requires the
name to be appended; but the substring test of line 104 finds "A" inside
"A/B" and the walker reuses the directory unchanged. -/
theorem C1_counterexample :
    List.getLast? ["A", "B"] = some "B" ∧ ("B" : String) ≠ "A" ∧
    folderTarget ["A", "B"] "A" = ["A", "B"] ∧
    folderTarget ["A", "B"] "A" ≠ ["A", "B", "A"] := by
  refine ⟨by decide, by decide, by decide, by decide⟩

/-- C1 amended: the walker reuses outputDir exactly when the folder's display
name occurs as a substring anywhere in the rendered outputDir string — in
particular whenever the final component equals the name — and appends the
name as a new component (creating the directory) only when the name occurs
nowhere in the rendering. -/
theorem C1_thm (dir : List String) (name : String) :
    (dir.getLast? = some name → folderTarget dir name = dir) ∧
    (strInPath name dir = true → folderTarget dir name = dir) ∧
    (strInPath name dir = false → folderTarget dir name = dir ++ [name]) := by
  refine ⟨?_, ?_, ?_⟩
  · intro h
    simp [folderTarget, strInPath_of_last dir name h]
  · intro h
    simp [folderTarget, h]
  · intro h
    simp [folderTarget, h]

/-- Witness for C1 amended: a trailing component equal to the folder name is
reused; a name occurring nowhere is appended. -/
theorem C1_witness :
    folderTarget ["data", "blob"] "blob" = ["data", "blob"] ∧
    folderTarget ["data", "blob"] "music" = ["data", "blob", "music"] :=
  ⟨(C1_thm ["data", "blob"] "blob").1 (by decide),
   (C1_thm ["data", "blob"] "music").2.2 (by decide)⟩

/-! ## Claim C3 -/

/-- C3 counterexample: the claim says the counter is advanced exactly once
for every file entry regardless of outcome, the per-file fetch/write
exception case included, because the increment allegedly sits at the top of
the per-file block.  In the code the increment is at line 125 (skip branch)
and line 144 (bottom of the block), so an entry whose direct download raises
is logged as failed and the counter is NOT advanced: it stays 0 here instead
of the claimed 1. -/
theorem C3_counterexample :
    (download_google_drive_folder (RNode.file ⟨"a.txt", true, none, true⟩)
      ["o"] ⟨[], [], 0, [], []⟩).counter = 0 ∧
    (download_google_drive_folder (RNode.file ⟨"a.txt", true, none, true⟩)
      ["o"] ⟨[], [], 0, [], []⟩).log = [LogEntry.errFile "a.txt"] := by
  refine ⟨by decide, by decide⟩

/-- C3 amended: the counter is advanced exactly once on every outcome that
completes the per-file block — skip-because-exists, successful download,
successful export, no-PDF warning, not-downloadable warning — and is NOT
advanced when the fetch or write raises (the increment sits in the skip
branch and at the bottom of the block, not at its top). -/
theorem C3_thm (e : FileEntry) (dir : List String) (s : DState) :
    (download_google_drive_folder (RNode.file e) dir s).counter
      = s.counter + (if counterAdvances e dir s.fs then 1 else 0) := by
  rcases e with ⟨title, hdl, el, rz⟩
  rcases hex : pathExists (dir ++ [title]) s.fs with - | - <;>
    rcases hdl with - | - <;>
      rcases rz with - | - <;>
        rcases el with - | ⟨- | l⟩ <;>
          simp [download_google_drive_folder, counterAdvances, hex]

/-! ## Suffix-substitution lemmas -/

theorem lastIndexOfDot_no_dot (v : List Char) (h : '.' ∉ v) : lastIndexOfDot v = none := by
  induction v with
  | nil => rfl
  | cons c t ih =>
    simp only [List.mem_cons, not_or] at h
    have hc : (c == '.') = false := by
      rcases h0 : (c == '.') with - | -
      · rfl
      · exact absurd (eq_of_beq h0).symm h.1
    simp [lastIndexOfDot, ih h.2, hc]

theorem lastIndexOfDot_append_dot (base ext : List Char) (h : '.' ∉ ext) :
    lastIndexOfDot (base ++ '.' :: ext) = some base.length := by
  induction base with
  | nil => simp [lastIndexOfDot, lastIndexOfDot_no_dot ext h]
  | cons c t ih => simp [lastIndexOfDot, ih]

/-! ## Claim C7 -/

/-- C7: a file entry without a direct-download reference but with a PDF
export reference, whose display-name target path is absent, has the exported
bytes written to the target path with '.pdf' substituted for the original
extension; an entry with export references but no PDF reference only logs a
warning and writes nothing.  The final conjunct states the substitution law
itself: for a name of the shape base.ext (ext dot-free and non-empty, base
non-empty) the written name is base.pdf. -/
theorem C7_thm :
    (∀ (e : FileEntry) (dir : List String) (s : DState) (l : String),
      e.hasDownloadUrl = false → e.raises = false →
      e.exportLinks = some (some l) →
      pathExists (dir ++ [e.title]) s.fs = false →
      download_google_drive_folder (RNode.file e) dir s
        = { s with fs := addPath (dir ++ [withSuffixPdf e.title]) s.fs,
                   writes := s.writes ++ [dir ++ [withSuffixPdf e.title]],
                   log := s.log ++ [LogEntry.exported e.title],
                   counter := s.counter + 1 }) ∧
    (∀ (e : FileEntry) (dir : List String) (s : DState),
      e.hasDownloadUrl = false →
      e.exportLinks = some none →
      pathExists (dir ++ [e.title]) s.fs = false →
      download_google_drive_folder (RNode.file e) dir s
        = { s with log := s.log ++ [LogEntry.warnNoExportLink e.title],
                   counter := s.counter + 1 }) ∧
    (∀ (base ext : List Char), base ≠ [] → ext ≠ [] → '.' ∉ ext →
      withSuffixPdfL (base ++ '.' :: ext) = base ++ ".pdf".toList) := by
  refine ⟨?_, ?_, ?_⟩
  · rintro ⟨title, hdl, el, rz⟩ dir s l h1 h2 h3 h4
    simp only at h1 h2 h3
    subst h1 h2 h3
    simp [download_google_drive_folder, h4]
  · rintro ⟨title, hdl, el, rz⟩ dir s h1 h2 h3
    simp only at h1 h2
    subst h1 h2
    simp [download_google_drive_folder, h3]
  · intro base ext hb he hd
    have h1 := lastIndexOfDot_append_dot base ext hd
    have hpos : 0 < base.length := List.length_pos.mpr hb
    have hlt : base.length + 1 < (base ++ '.' :: ext).length := by
      simp only [List.length_append, List.length_cons]
      have := List.length_pos.mpr he
      omega
    have hcond : (decide (0 < base.length) && decide (base.length + 1 < (base ++ '.' :: ext).length)) = true := by
      have hx : 0 < ext.length := List.length_pos.mpr he
      simp [hpos, hlt, hx]
    simp only [withSuffixPdfL, h1, hcond, if_true]
    rw [take_length_append]

/-- Witness for C7: a PDF-exportable document named "Report.docx" is written
as "Report.pdf"; an export entry named "Sheet" with no PDF link only warns. -/
theorem C7_witness :
    download_google_drive_folder (RNode.file ⟨"Report.docx", false, some (some "L"), false⟩)
        ["o"] ⟨[], [], 0, [], []⟩
      = ⟨[["o", "Report.pdf"]], [], 1, [["o", "Report.pdf"]], [LogEntry.exported "Report.docx"]⟩ ∧
    download_google_drive_folder (RNode.file ⟨"Sheet", false, some none, false⟩)
        ["o"] ⟨[], [], 0, [], []⟩
      = ⟨[], [], 1, [], [LogEntry.warnNoExportLink "Sheet"]⟩ ∧
    withSuffixPdfL ("Report".toList ++ '.' :: "docx".toList) = "Report".toList ++ ".pdf".toList := by
  refine ⟨?_, ?_, ?_⟩
  · exact (C7_thm.1 _ ["o"] _ "L" rfl rfl rfl (by decide)).trans (by decide)
  · exact (C7_thm.2.1 _ ["o"] _ rfl rfl (by decide)).trans (by decide)
  · exact C7_thm.2.2 _ _ (by decide) (by decide) (by decide)

/-! ## Claim C9 -/

/-- C9: the existence check of line 123 probes only the display-name target
path; for an export-only entry whose display-name path is absent the export
branch writes to the pdf-substituted path unconditionally — here, even
though a file already sits at that pdf path, the walker fetches and writes
(overwriting it) rather than skipping. -/
theorem C9_thm (e : FileEntry) (dir : List String) (s : DState) (l : String)
    (h1 : e.hasDownloadUrl = false) (h2 : e.raises = false)
    (h3 : e.exportLinks = some (some l))
    (h4 : pathExists (dir ++ [e.title]) s.fs = false)
    (h5 : pathExists (dir ++ [withSuffixPdf e.title]) s.fs = true) :
    download_google_drive_folder (RNode.file e) dir s
      = { s with writes := s.writes ++ [dir ++ [withSuffixPdf e.title]],
                 log := s.log ++ [LogEntry.exported e.title],
                 counter := s.counter + 1 } := by
  rcases e with ⟨title, hdl, el, rz⟩
  simp only at h1 h2 h3
  subst h1 h2 h3
  simp [download_google_drive_folder, h4, addPath, h5]

/-- Witness for C9: "Doc.docx" is export-only, "Doc.pdf" already exists on
disk; the walker re-exports over it anyway. -/
theorem C9_witness :
    download_google_drive_folder (RNode.file ⟨"Doc.docx", false, some (some "L"), false⟩)
        ["o"] ⟨[["o", "Doc.pdf"]], [], 0, [], []⟩
      = ⟨[["o", "Doc.pdf"]], [], 1, [["o", "Doc.pdf"]], [LogEntry.exported "Doc.docx"]⟩ :=
  (C9_thm _ ["o"] _ "L" rfl rfl rfl (by decide) (by decide)).trans (by decide)

/-! ## Claim C8 -/

/-- C8: remote listing and metadata failures are subtree-local.  The counter
pre-pass returns 0 for a folder whose listing fails; the walker on a folder
whose metadata fetch fails returns with only an error log line; the walker on
a folder whose listing fails returns having changed neither disk contents nor
writes nor the counter, logging the processing line and the error; and both
the sibling loop and the root loop continue structurally with the next entry
after any child returns. -/
theorem C8_thm :
    (∀ fid m, count_files (RNode.folder fid m none) = 0) ∧
    (∀ fid listing dir s, download_google_drive_folder (RNode.folder fid none listing) dir s
        = { s with log := s.log ++ [LogEntry.errMeta fid] }) ∧
    (∀ fid name dir s,
        (download_google_drive_folder (RNode.folder fid (some name) none) dir s).fs = s.fs ∧
        (download_google_drive_folder (RNode.folder fid (some name) none) dir s).writes = s.writes ∧
        (download_google_drive_folder (RNode.folder fid (some name) none) dir s).counter = s.counter ∧
        (download_google_drive_folder (RNode.folder fid (some name) none) dir s).log
          = s.log ++ [LogEntry.processing name, LogEntry.errListing fid]) ∧
    (∀ c t dir s, download_folder_children (RList.rcons c t) dir s
        = download_folder_children t dir (download_google_drive_folder c dir s)) ∧
    (∀ (r : RNode) (rest : List RNode) (outDir : List String) (s : DState),
        (r :: rest).foldl (fun s n => download_google_drive_folder n outDir s) s
          = rest.foldl (fun s n => download_google_drive_folder n outDir s)
              (download_google_drive_folder r outDir s)) := by
  refine ⟨?_, ?_, ?_, ?_, ?_⟩
  · intro fid m
    simp [count_files]
  · intro fid listing dir s
    simp [download_google_drive_folder]
  · intro fid name dir s
    rcases hs : strInPath name dir with - | - <;>
      refine ⟨?_, ?_, ?_, ?_⟩ <;>
        simp [download_google_drive_folder, hs]
  · intro c t dir s
    rfl
  · intro r rest outDir s
    rfl

/-! ## Claim C6 -/

mutual
theorem count_desc_node : ∀ (n : RNode), allSuccNode n = true → isFileEntry n = false →
    count_files n = (descendants n).countP (fun c => isFileEntry c)
  | RNode.file _, _, hf => by simp [isFileEntry] at hf
  | RNode.folder fid m none, h, _ => by simp [allSuccNode] at h
  | RNode.folder fid m (some cs), h, _ => by
      have hl : allSuccChildren cs = true := by
        have h2 := h
        simp [allSuccNode] at h2
        exact h2.2
      have hrec := count_desc_children cs hl
      simpa [count_files, descendants] using hrec
theorem count_desc_children : ∀ (cs : RList), allSuccChildren cs = true →
    count_files_children cs = (descendantsChildren cs).countP (fun c => isFileEntry c)
  | RList.rnil, _ => by simp [count_files_children, descendantsChildren]
  | RList.rcons c t, h => by
      have hc : allSuccNode c = true := by
        simp [allSuccChildren] at h
        exact h.1
      have ht : allSuccChildren t = true := by
        simp [allSuccChildren] at h
        exact h.2
      have iht := count_desc_children t ht
      cases c with
      | file e =>
          simp [count_files_children, descendantsChildren, count_files, descendants,
            isFileEntry, List.countP_cons, List.countP_append, iht]
          omega
      | folder fid m li =>
          have ihc := count_desc_node (RNode.folder fid m li) hc rfl
          have hIs : isFileEntry (RNode.folder fid m li) = false := rfl
          simp only [count_files_children, descendantsChildren, List.countP_cons,
            List.countP_append, hIs, iht, ihc, Bool.false_eq_true, if_false]
          omega
end

/-- C6: for a folder on which every listing succeeds, count_files returns
exactly the number of descendant file entries across arbitrary nesting depth
(folders contribute 0 themselves, each file contributes 1), where the
descendant count is the spec-worded definition specDescFileCount, computed
independently of count_files by flattening the descendant list.  The tree is
acyclic by construction, matching the assumed external invariant. -/
theorem C6_thm (fid : String) (m : Option String) (listing : Option RList)
    (h : allSuccNode (RNode.folder fid m listing) = true) :
    count_files (RNode.folder fid m listing)
      = specDescFileCount (RNode.folder fid m listing) := by
  unfold specDescFileCount
  exact count_desc_node _ h rfl

/-- Witness for C6 on a two-level tree with 3 files (two at the root, one
nested). -/
theorem C6_witness :
    count_files (RNode.folder "r" (some "R") (some (RList.rcons (RNode.file ⟨"a", true, none, false⟩)
        (RList.rcons (RNode.folder "s" (some "S") (some (RList.rcons (RNode.file ⟨"b", true, none, false⟩) RList.rnil)))
          (RList.rcons (RNode.file ⟨"c", false, some (some "L"), false⟩) RList.rnil)))))
      = specDescFileCount (RNode.folder "r" (some "R") (some (RList.rcons (RNode.file ⟨"a", true, none, false⟩)
        (RList.rcons (RNode.folder "s" (some "S") (some (RList.rcons (RNode.file ⟨"b", true, none, false⟩) RList.rnil)))
          (RList.rcons (RNode.file ⟨"c", false, some (some "L"), false⟩) RList.rnil))))) ∧
    count_files (RNode.folder "r" (some "R") (some (RList.rcons (RNode.file ⟨"a", true, none, false⟩)
        (RList.rcons (RNode.folder "s" (some "S") (some (RList.rcons (RNode.file ⟨"b", true, none, false⟩) RList.rnil)))
          (RList.rcons (RNode.file ⟨"c", false, some (some "L"), false⟩) RList.rnil)))))
      = 3 :=
  ⟨C6_thm _ _ _ (by decide), by decide⟩

/-! ## Walker unfolding and state lemmas -/

theorem walk_folder_eq (fid name : String) (cs : RList) (dir : List String) (s : DState) :
    download_google_drive_folder (RNode.folder fid (some name) (some cs)) dir s
      = download_folder_children cs (folderTarget dir name) (afterMeta name dir s) := by
  rcases hs : strInPath name dir with - | - <;>
    simp [download_google_drive_folder, afterMeta, hs]

theorem afterMeta_fs (name : String) (dir : List String) (s : DState) :
    (afterMeta name dir s).fs = s.fs := by
  unfold afterMeta
  split <;> rfl

theorem afterMeta_writes (name : String) (dir : List String) (s : DState) :
    (afterMeta name dir s).writes = s.writes := by
  unfold afterMeta
  split <;> rfl

theorem afterMeta_counter (name : String) (dir : List String) (s : DState) :
    (afterMeta name dir s).counter = s.counter := by
  unfold afterMeta
  split <;> rfl

theorem afterMeta_log (name : String) (dir : List String) (s : DState) :
    (afterMeta name dir s).log = s.log ++ [LogEntry.processing name] := by
  unfold afterMeta
  split <;> rfl

/-! ## Claim C5 -/

mutual
theorem counter_node : ∀ (n : RNode) (dir : List String) (s : DState), allSuccNode n = true →
    (download_google_drive_folder n dir s).counter = s.counter + count_files n
  | RNode.file e, dir, s, h => by
      rcases e with ⟨title, hdl, el, rz⟩
      have hrz : rz = false := by simpa [allSuccNode] using h
      subst hrz
      rcases hex : pathExists (dir ++ [title]) s.fs with - | - <;>
        rcases hdl with - | - <;>
          rcases el with - | ⟨- | l⟩ <;>
            simp [download_google_drive_folder, count_files, hex]
  | RNode.folder fid m none, dir, s, h => by simp [allSuccNode] at h
  | RNode.folder fid none (some cs), dir, s, h => by simp [allSuccNode] at h
  | RNode.folder fid (some name) (some cs), dir, s, h => by
      have hl : allSuccChildren cs = true := by simpa [allSuccNode] using h
      rw [walk_folder_eq]
      rw [counter_children cs (folderTarget dir name) (afterMeta name dir s) hl]
      rw [afterMeta_counter]
      simp [count_files]
theorem counter_children : ∀ (cs : RList) (dir : List String) (s : DState),
    allSuccChildren cs = true →
    (download_folder_children cs dir s).counter = s.counter + count_files_children cs
  | RList.rnil, dir, s, _ => by simp [download_folder_children, count_files_children]
  | RList.rcons c t, dir, s, h => by
      have hc : allSuccNode c = true := by
        simp [allSuccChildren] at h
        exact h.1
      have ht : allSuccChildren t = true := by
        simp [allSuccChildren] at h
        exact h.2
      have h1 := counter_node c dir s hc
      have h2 := counter_children t dir (download_google_drive_folder c dir s) ht
      simp only [download_folder_children, count_files_children, h2, h1]
      omega
end

/-- C5: when every listing, metadata and fetch operation succeeds, the
progress counter's final value after walking all roots equals the total
computed once by the counting pre-pass before any download: the bar reaches
its fixed total exactly when every file (skips included) has been
processed. -/
theorem C5_thm (roots : List RNode) (outDir : List String)
    (fs0 dirs0 : List (List String))
    (h : ∀ n ∈ roots, allSuccNode n = true) :
    ((google_drive_bulk_download roots outDir fs0 dirs0).2).counter
      = (google_drive_bulk_download roots outDir fs0 dirs0).1 := by
  suffices hgen : ∀ (rs : List RNode) (s : DState), (∀ n ∈ rs, allSuccNode n = true) →
      (rs.foldl (fun s n => download_google_drive_folder n outDir s) s).counter
        = s.counter + (rs.map count_files).sum by
    have hg := hgen roots ⟨fs0, dirs0, 0, [], []⟩ h
    simpa [google_drive_bulk_download] using hg
  intro rs
  induction rs with
  | nil =>
    intro s h0
    simp
  | cons r rest ih =>
    intro s hall
    simp only [List.foldl_cons, List.map_cons, List.sum_cons]
    rw [ih _ (fun n hn => hall n (List.mem_cons_of_mem _ hn)),
        counter_node r outDir s (hall r (List.mem_cons_self _ _))]
    omega

/-- Witness for C5: one root with one direct-download file and one nested
file; the counter ends at the pre-computed total 2, on untouched disk state. -/
theorem C5_witness :
    ((google_drive_bulk_download
        [RNode.folder "r" (some "R") (some (RList.rcons (RNode.file ⟨"a", true, none, false⟩)
          (RList.rcons (RNode.folder "s" (some "S")
            (some (RList.rcons (RNode.file ⟨"b", true, none, false⟩) RList.rnil))) RList.rnil)))]
        ["out"] [] []).2).counter
      = (google_drive_bulk_download
        [RNode.folder "r" (some "R") (some (RList.rcons (RNode.file ⟨"a", true, none, false⟩)
          (RList.rcons (RNode.folder "s" (some "S")
            (some (RList.rcons (RNode.file ⟨"b", true, none, false⟩) RList.rnil))) RList.rnil)))]
        ["out"] [] []).1 :=
  C5_thm _ ["out"] [] [] (by decide)

/-! ## Filesystem lemmas for C2 -/

theorem pathExists_append (p : List String) (fs gs : List (List String)) :
    pathExists p (fs ++ gs) = (pathExists p fs || pathExists p gs) := by
  induction fs with
  | nil => simp [pathExists]
  | cons q t ih =>
    simp only [List.cons_append, pathExists]
    split
    · simp
    · exact ih

theorem pathExists_addPath_self (p : List String) (fs : List (List String)) :
    pathExists p (addPath p fs) = true := by
  unfold addPath
  rcases h : pathExists p fs with - | -
  · simp [h, pathExists_append, pathExists]
  · simp [h]

theorem pathExists_addPath_mono (p q : List String) (fs : List (List String))
    (h : pathExists p fs = true) : pathExists p (addPath q fs) = true := by
  unfold addPath
  split
  · exact h
  · simp [pathExists_append, h]

mutual
theorem walk_fs_mono : ∀ (n : RNode) (dir : List String) (s : DState) (p : List String),
    pathExists p s.fs = true → pathExists p (download_google_drive_folder n dir s).fs = true
  | RNode.file e, dir, s, p, hp => by
      rcases e with ⟨title, hdl, el, rz⟩
      rcases hex : pathExists (dir ++ [title]) s.fs with - | - <;>
        rcases hdl with - | - <;>
          rcases rz with - | - <;>
            rcases el with - | ⟨- | l⟩ <;>
              simp [download_google_drive_folder, hex, pathExists_addPath_mono, hp]
  | RNode.folder fid none listing, dir, s, p, hp => by
      simp [download_google_drive_folder, hp]
  | RNode.folder fid (some name) none, dir, s, p, hp => by
      rcases hs : strInPath name dir with - | - <;>
        simp [download_google_drive_folder, hs, hp]
  | RNode.folder fid (some name) (some cs), dir, s, p, hp => by
      rw [walk_folder_eq]
      apply walkchildren_fs_mono
      rw [afterMeta_fs]
      exact hp
theorem walkchildren_fs_mono : ∀ (cs : RList) (dir : List String) (s : DState) (p : List String),
    pathExists p s.fs = true → pathExists p (download_folder_children cs dir s).fs = true
  | RList.rnil, _dir, _s, _p, hp => hp
  | RList.rcons c t, dir, s, p, hp =>
      walkchildren_fs_mono t dir _ p (walk_fs_mono c dir s p hp)
end

mutual
theorem walk_covers : ∀ (n : RNode) (dir : List String) (s : DState),
    resumableNode n = true → ∀ p ∈ fileTargets n dir,
      pathExists p (download_google_drive_folder n dir s).fs = true
  | RNode.file e, dir, s, h, p, hp => by
      rcases e with ⟨title, hdl, el, rz⟩
      simp only [fileTargets, List.mem_singleton] at hp
      subst hp
      rcases hdl with - | -
      · rcases el with - | ⟨- | l⟩
        · simp [resumableNode, entryResumable] at h
        · simp [resumableNode, entryResumable] at h
        · have hparts : rz = false ∧ withSuffixPdf title = title := by
            simpa [resumableNode, entryResumable] using h
          rcases hparts with ⟨hrz, heq⟩
          subst hrz
          rcases hex : pathExists (dir ++ [title]) s.fs with - | -
          · simp [download_google_drive_folder, hex, heq, pathExists_addPath_self]
          · simp [download_google_drive_folder, hex]
      · have hrz : rz = false := by
          simpa [resumableNode, entryResumable] using h
        subst hrz
        rcases hex : pathExists (dir ++ [title]) s.fs with - | -
        · simp [download_google_drive_folder, hex, pathExists_addPath_self]
        · simp [download_google_drive_folder, hex]
  | RNode.folder fid none listing, dir, s, h, p, hp => by
      simp [resumableNode] at h
  | RNode.folder fid (some name) none, dir, s, h, p, hp => by
      simp [resumableNode] at h
  | RNode.folder fid (some name) (some cs), dir, s, h, p, hp => by
      have hl : resumableChildren cs = true := by simpa [resumableNode] using h
      simp only [fileTargets] at hp
      rw [walk_folder_eq]
      exact walkchildren_covers cs (folderTarget dir name) _ hl p hp
theorem walkchildren_covers : ∀ (cs : RList) (dir : List String) (s : DState),
    resumableChildren cs = true → ∀ p ∈ fileTargetsChildren cs dir,
      pathExists p (download_folder_children cs dir s).fs = true
  | RList.rnil, dir, s, _, p, hp => by simp [fileTargetsChildren] at hp
  | RList.rcons c t, dir, s, h, p, hp => by
      have hc : resumableNode c = true := by
        simp [resumableChildren] at h
        exact h.1
      have ht : resumableChildren t = true := by
        simp [resumableChildren] at h
        exact h.2
      simp only [fileTargetsChildren, List.mem_append] at hp
      rcases hp with hp | hp
      · exact walkchildren_fs_mono t dir _ p (walk_covers c dir s hc p hp)
      · exact walkchildren_covers t dir _ ht p hp
end

mutual
theorem walk_skips : ∀ (n : RNode) (dir : List String) (s : DState),
    resumableNode n = true →
    (∀ p ∈ fileTargets n dir, pathExists p s.fs = true) →
    (download_google_drive_folder n dir s).fs = s.fs ∧
    (download_google_drive_folder n dir s).writes = s.writes ∧
    (download_google_drive_folder n dir s).counter = s.counter + count_files n ∧
    ∃ δ, (download_google_drive_folder n dir s).log = s.log ++ δ ∧
      ∀ x ∈ δ, skipOrProcessing x = true
  | RNode.file e, dir, s, h, hcov => by
      rcases e with ⟨title, hdl, el, rz⟩
      have hex : pathExists (dir ++ [title]) s.fs = true :=
        hcov _ (by simp [fileTargets])
      refine ⟨?_, ?_, ?_, ⟨[LogEntry.skip title], ?_, ?_⟩⟩ <;>
        simp [download_google_drive_folder, hex, count_files, skipOrProcessing]
  | RNode.folder fid none listing, dir, s, h, hcov => by
      simp [resumableNode] at h
  | RNode.folder fid (some name) none, dir, s, h, hcov => by
      simp [resumableNode] at h
  | RNode.folder fid (some name) (some cs), dir, s, h, hcov => by
      have hl : resumableChildren cs = true := by simpa [resumableNode] using h
      rw [walk_folder_eq]
      have hcov2 : ∀ p ∈ fileTargetsChildren cs (folderTarget dir name),
          pathExists p (afterMeta name dir s).fs = true := by
        intro p hp
        rw [afterMeta_fs]
        exact hcov p (by simpa [fileTargets] using hp)
      rcases walkchildren_skips cs (folderTarget dir name) (afterMeta name dir s) hl hcov2 with
        ⟨h1, h2, h3, δ, h4, h5⟩
      refine ⟨?_, ?_, ?_, ⟨LogEntry.processing name :: δ, ?_, ?_⟩⟩
      · rw [h1, afterMeta_fs]
      · rw [h2, afterMeta_writes]
      · rw [h3, afterMeta_counter]
        simp [count_files]
      · rw [h4, afterMeta_log]
        simp
      · intro x hx
        rcases List.mem_cons.mp hx with rfl | hx
        · rfl
        · exact h5 x hx
theorem walkchildren_skips : ∀ (cs : RList) (dir : List String) (s : DState),
    resumableChildren cs = true →
    (∀ p ∈ fileTargetsChildren cs dir, pathExists p s.fs = true) →
    (download_folder_children cs dir s).fs = s.fs ∧
    (download_folder_children cs dir s).writes = s.writes ∧
    (download_folder_children cs dir s).counter = s.counter + count_files_children cs ∧
    ∃ δ, (download_folder_children cs dir s).log = s.log ++ δ ∧
      ∀ x ∈ δ, skipOrProcessing x = true
  | RList.rnil, dir, s, _, _ => by
      refine ⟨rfl, rfl, by simp [download_folder_children, count_files_children], ⟨[], ?_, by simp⟩⟩
      simp [download_folder_children]
  | RList.rcons c t, dir, s, h, hcov => by
      have hc : resumableNode c = true := by
        simp [resumableChildren] at h
        exact h.1
      have ht : resumableChildren t = true := by
        simp [resumableChildren] at h
        exact h.2
      have hcovc : ∀ p ∈ fileTargets c dir, pathExists p s.fs = true := by
        intro p hp
        exact hcov p (by simp [fileTargetsChildren, hp])
      rcases walk_skips c dir s hc hcovc with ⟨h1, h2, h3, δ1, h4, h5⟩
      have hcovt : ∀ p ∈ fileTargetsChildren t dir,
          pathExists p (download_google_drive_folder c dir s).fs = true := by
        intro p hp
        rw [h1]
        exact hcov p (by simp [fileTargetsChildren, hp])
      rcases walkchildren_skips t dir (download_google_drive_folder c dir s) ht hcovt with
        ⟨g1, g2, g3, δ2, g4, g5⟩
      simp only [download_folder_children, count_files_children]
      refine ⟨?_, ?_, ?_, ⟨δ1 ++ δ2, ?_, ?_⟩⟩
      · rw [g1, h1]
      · rw [g2, h2]
      · rw [g3, h3]
        omega
      · rw [g4, h4]
        simp
      · intro x hx
        rcases List.mem_append.mp hx with hx | hx
        · exact h5 x hx
        · exact g5 x hx
end

/-! ## Claim C2 -/

/-- C2 counterexample: a folder holding one export-only document named
"Doc.docx".  The first run writes out/F/Doc.pdf.  The second run probes
out/F/Doc.docx — absent — so it does NOT hit the skip branch: it re-fetches
the export and performs a second content write (re-exporting over the pdf),
refuting the claim that a re-run performs zero downloads and zero writes
with every entry skipping. -/
theorem C2_counterexample :
    (download_google_drive_folder
      (RNode.folder "fid" (some "F")
        (some (RList.rcons (RNode.file ⟨"Doc.docx", false, some (some "L"), false⟩) RList.rnil)))
      ["out"] ⟨[], [], 0, [], []⟩).writes = [["out", "F", "Doc.pdf"]] ∧
    (download_google_drive_folder
      (RNode.folder "fid" (some "F")
        (some (RList.rcons (RNode.file ⟨"Doc.docx", false, some (some "L"), false⟩) RList.rnil)))
      ["out"]
      (download_google_drive_folder
        (RNode.folder "fid" (some "F")
          (some (RList.rcons (RNode.file ⟨"Doc.docx", false, some (some "L"), false⟩) RList.rnil)))
        ["out"] ⟨[], [], 0, [], []⟩)).writes
      = [["out", "F", "Doc.pdf"], ["out", "F", "Doc.pdf"]] := by
  refine ⟨by decide, by decide⟩

/-- C2 amended: the idempotence/resume law holds for every tree whose file
entries all leave their display-name path on disk after a successful first
run — all direct-download entries, and export entries whose name is
unchanged by the '.pdf' substitution (resumableNode).  For such trees a
second run changes no disk contents, performs zero content writes,
increments the counter once per file, and appends only skip and
folder-processing log lines.  Export-only entries whose name changes under
the substitution are re-exported on every run (see the counterexample). -/
theorem C2_thm (n : RNode) (dir : List String) (s : DState)
    (h : resumableNode n = true) :
    (download_google_drive_folder n dir (download_google_drive_folder n dir s)).fs
      = (download_google_drive_folder n dir s).fs ∧
    (download_google_drive_folder n dir (download_google_drive_folder n dir s)).writes
      = (download_google_drive_folder n dir s).writes ∧
    (download_google_drive_folder n dir (download_google_drive_folder n dir s)).counter
      = (download_google_drive_folder n dir s).counter + count_files n ∧
    ∃ δ, (download_google_drive_folder n dir (download_google_drive_folder n dir s)).log
        = (download_google_drive_folder n dir s).log ++ δ ∧
      ∀ x ∈ δ, skipOrProcessing x = true :=
  walk_skips n dir _ h (fun p hp => walk_covers n dir s h p hp)

/-- Witness for C2 amended on a one-folder, one-direct-file tree. -/
theorem C2_witness :
    (download_google_drive_folder
      (RNode.folder "r" (some "R")
        (some (RList.rcons (RNode.file ⟨"a.txt", true, none, false⟩) RList.rnil)))
      ["out"]
      (download_google_drive_folder
        (RNode.folder "r" (some "R")
          (some (RList.rcons (RNode.file ⟨"a.txt", true, none, false⟩) RList.rnil)))
        ["out"] ⟨[], [], 0, [], []⟩)).fs
      = (download_google_drive_folder
        (RNode.folder "r" (some "R")
          (some (RList.rcons (RNode.file ⟨"a.txt", true, none, false⟩) RList.rnil)))
        ["out"] ⟨[], [], 0, [], []⟩).fs ∧
    (download_google_drive_folder
      (RNode.folder "r" (some "R")
        (some (RList.rcons (RNode.file ⟨"a.txt", true, none, false⟩) RList.rnil)))
      ["out"]
      (download_google_drive_folder
        (RNode.folder "r" (some "R")
          (some (RList.rcons (RNode.file ⟨"a.txt", true, none, false⟩) RList.rnil)))
        ["out"] ⟨[], [], 0, [], []⟩)).writes
      = (download_google_drive_folder
        (RNode.folder "r" (some "R")
          (some (RList.rcons (RNode.file ⟨"a.txt", true, none, false⟩) RList.rnil)))
        ["out"] ⟨[], [], 0, [], []⟩).writes ∧
    (download_google_drive_folder
      (RNode.folder "r" (some "R")
        (some (RList.rcons (RNode.file ⟨"a.txt", true, none, false⟩) RList.rnil)))
      ["out"]
      (download_google_drive_folder
        (RNode.folder "r" (some "R")
          (some (RList.rcons (RNode.file ⟨"a.txt", true, none, false⟩) RList.rnil)))
        ["out"] ⟨[], [], 0, [], []⟩)).counter
      = (download_google_drive_folder
        (RNode.folder "r" (some "R")
          (some (RList.rcons (RNode.file ⟨"a.txt", true, none, false⟩) RList.rnil)))
        ["out"] ⟨[], [], 0, [], []⟩).counter
        + count_files (RNode.folder "r" (some "R")
            (some (RList.rcons (RNode.file ⟨"a.txt", true, none, false⟩) RList.rnil))) ∧
    ∃ δ, (download_google_drive_folder
      (RNode.folder "r" (some "R")
        (some (RList.rcons (RNode.file ⟨"a.txt", true, none, false⟩) RList.rnil)))
      ["out"]
      (download_google_drive_folder
        (RNode.folder "r" (some "R")
          (some (RList.rcons (RNode.file ⟨"a.txt", true, none, false⟩) RList.rnil)))
        ["out"] ⟨[], [], 0, [], []⟩)).log
        = (download_google_drive_folder
          (RNode.folder "r" (some "R")
            (some (RList.rcons (RNode.file ⟨"a.txt", true, none, false⟩) RList.rnil)))
          ["out"] ⟨[], [], 0, [], []⟩).log ++ δ ∧
      ∀ x ∈ δ, skipOrProcessing x = true :=
  C2_thm
    (RNode.folder "r" (some "R")
      (some (RList.rcons (RNode.file ⟨"a.txt", true, none, false⟩) RList.rnil)))
    ["out"] ⟨[], [], 0, [], []⟩ (by decide)
